import Mathlib

/-!
# Eventide-AI — Multi-Source Media Extraction & Fusion Pipeline

A shallow embedding, in Lean 4, of the core of the Eventide-AI backend:

* the Stage-3 fusion/merge step of `src/backend/src/routes/extract.ts`
  (`router.post('/')`, video-URL branch),
* `VideoFrameExtractor` (`src/backend/src/services/video-frame-extractor.ts`):
  smart frame-timestamp sampling, strategy dispatch, audio-extraction
  parameters, and temp-file bookkeeping of the download path,
* `GeminiExtractor.normalizeTime` and `GeminiExtractor.validateAndNormalize`,
* `QRCodeExtractor.extractFromBase64` / `decodeQRCode`,
* `AudioTranscriber.transcribe` / `transcribeInChunks`.

JavaScript numbers are modelled as `ℚ` (exact arithmetic), JS strings as
`String`, absent/`undefined`/`null` string fields as `Option String`, and
JS truthiness of an optional string as "present and non-empty".  External
effects (Gemini calls, jsQR, the network, ffmpeg, the Speech API) are
modelled as oracle fields of explicit environment structures; the functions
of the repository are translated statement by statement over those oracles.
-/

namespace Eventide

/-- JS truthiness of an optional string field: `undefined`, `null` and the
empty string are falsy, every other string is truthy. -/
def truthy : Option String → Bool
  | none => false
  | some s => s ≠ ""

/-- JS whitespace test for the characters that matter here (`String.trim`,
`split(/\s+/)`).  We use the same class as Lean's `Char.isWhitespace`. -/
def isWs (c : Char) : Bool := c.isWhitespace

/-- `String.prototype.trim`, on the character list. -/
def jsTrimList (l : List Char) : List Char :=
  ((l.dropWhile isWs).reverse.dropWhile isWs).reverse

/-- `String.prototype.trim`. -/
def jsTrim (s : String) : String := String.mk (jsTrimList s.data)

/-- `x || ''` on an optional string. -/
def orEmpty : Option String → String
  | none => ""
  | some s => s

/-- `haystack.includes(needle)` (JS `String.prototype.includes`). -/
def jsIncludes (haystack needle : String) : Bool :=
  decide (needle.data <:+: haystack.data)

/-! ## DraftEvent and the Stage-3 merge of `extract.ts`

`DraftEvent` is the common loosely-typed shape produced by every extraction
source (`frameAnalyses`, `descriptionAnalysis`, the combined extraction).
All fields are optional strings, checked by JS truthiness. -/

structure DraftEvent where
  title : Option String := none
  date : Option String := none
  time : Option String := none
  endTime : Option String := none
  location : Option String := none
  description : Option String := none
  eventType : Option String := none
  venueType : Option String := none
  deriving Repr, DecidableEq

/-- The `combinedText` of `extract.ts` lines 172–187: every textual signal,
empty ones filtered out (`filter(Boolean)`), joined with single spaces. -/
def combinedText (frameAnalyses descriptionAnalysis : DraftEvent)
    (transcription : String) (metaTitle metaDescription : Option String)
    (data : String) : String :=
  String.intercalate " " (List.filter (fun s => s ≠ "")
    [ orEmpty metaTitle
    , orEmpty metaDescription
    , transcription
    , orEmpty frameAnalyses.title
    , orEmpty frameAnalyses.date
    , orEmpty frameAnalyses.time
    , orEmpty frameAnalyses.location
    , orEmpty frameAnalyses.description
    , orEmpty descriptionAnalysis.title
    , orEmpty descriptionAnalysis.date
    , orEmpty descriptionAnalysis.time
    , orEmpty descriptionAnalysis.location
    , orEmpty descriptionAnalysis.description
    , data ])

/-- Stage 3 of the video-URL branch of `router.post('/')` in `extract.ts`
(lines 189–247).  `extractFromText` is the external Gemini text extractor,
called only in the combined branch. -/
def mergeStage3 (frameAnalyses descriptionAnalysis : DraftEvent)
    (transcription : String) (metaTitle metaDescription : Option String)
    (data : String) (extractFromText : String → DraftEvent) : DraftEvent :=
  if truthy frameAnalyses.title ∧ truthy frameAnalyses.date then
    -- frame analysis wins; back-fill description/time/endTime from a
    -- *complete* description analysis only
    let extracted := frameAnalyses
    if truthy descriptionAnalysis.title ∧ truthy descriptionAnalysis.date then
      let extracted :=
        if ¬ truthy extracted.description ∧ truthy descriptionAnalysis.description then
          { extracted with description := descriptionAnalysis.description }
        else extracted
      let extracted :=
        if ¬ truthy extracted.time ∧ truthy descriptionAnalysis.time then
          { extracted with time := descriptionAnalysis.time }
        else extracted
      let extracted :=
        if ¬ truthy extracted.endTime ∧ truthy descriptionAnalysis.endTime then
          { extracted with endTime := descriptionAnalysis.endTime }
        else extracted
      extracted
    else extracted
  else if truthy descriptionAnalysis.title ∧ truthy descriptionAnalysis.date then
    let extracted := descriptionAnalysis
    -- all-day events: drop an endTime that has a time component
    let extracted :=
      if ¬ truthy extracted.time ∧ truthy extracted.endTime then
        { extracted with endTime := none }
      else extracted
    let extracted :=
      if truthy frameAnalyses.eventType ∧ ¬ truthy extracted.eventType then
        { extracted with eventType := frameAnalyses.eventType }
      else extracted
    let extracted :=
      if truthy frameAnalyses.venueType ∧ ¬ truthy extracted.venueType then
        { extracted with venueType := frameAnalyses.venueType }
      else extracted
    extracted
  else
    let extracted := extractFromText
      (combinedText frameAnalyses descriptionAnalysis transcription
        metaTitle metaDescription data)
    let extracted :=
      if ¬ truthy extracted.time ∧ truthy extracted.endTime then
        { extracted with endTime := none }
      else extracted
    let extracted :=
      if truthy frameAnalyses.eventType ∧ ¬ truthy extracted.eventType then
        { extracted with eventType := frameAnalyses.eventType }
      else extracted
    let extracted :=
      if truthy frameAnalyses.venueType ∧ ¬ truthy extracted.venueType then
        { extracted with venueType := frameAnalyses.venueType }
      else extracted
    extracted

/-- The caller's Step-3 policy at `extract.ts` lines 479–482: an empty or
whitespace-only extracted date is replaced by today's date, a non-empty one
is used as is. -/
def eventDateOf (extractedDate : Option String) (today : String) : String :=
  if truthy extractedDate ∧ jsTrim (orEmpty extractedDate) ≠ "" then
    orEmpty extractedDate
  else today

/-! ## `VideoFrameExtractor.calculateSmartTimestamps`

`video-frame-extractor.ts` lines 571–606.  Durations are JS numbers,
modelled as `ℚ`; pushed timestamps are `Math.floor` results, hence `ℤ`.

The early-window `for (let t = 5; t < earlyWindow; t += 10)` loop is
written as a filter over `t ∈ {5, 15, 25, 35, 45, 55}`: since
`earlyWindow = min 60 (duration * 0.2) ≤ 60`, the source loop never reaches
`t = 65`, and the guard `t < earlyWindow` is monotone in `t`, so the filter
and the loop produce the same list. -/

/-- The early-window loop `for (let t = 5; t < earlyWindow; t += 10)`
with inner guard `if (t < duration) push(Math.floor(t))`. -/
def earlyTimestamps (duration earlyWindow : ℚ) : List ℤ :=
  (List.range 6).filterMap (fun k =>
    if ((5 + 10 * k : ℕ) : ℚ) < earlyWindow then
      if ((5 + 10 * k : ℕ) : ℚ) < duration then some ((5 + 10 * k : ℕ) : ℤ)
      else none
    else none)

/-- The evenly-spaced second phase
`for (let i = 1; i <= remainingFrames; i++)` with guard
`if (timestamp < duration) push(Math.floor(timestamp))`. -/
def laterTimestamps (duration startTime interval : ℚ) (remaining : ℕ) :
    List ℤ :=
  (List.range remaining).filterMap (fun (i : ℕ) =>
    if startTime + interval * ((i : ℚ) + 1) < duration then
      some ⌊startTime + interval * ((i : ℚ) + 1)⌋
    else none)

def calculateSmartTimestamps (duration : ℚ) (frameCount : ℕ) : List ℤ :=
  -- First 60 seconds or 20% of video, whichever is smaller
  let earlyWindow : ℚ := min 60 (duration * (1/5))
  -- Always include start (push 0 happens before the loop)
  let timestamps : List ℤ := 0 :: earlyTimestamps duration earlyWindow
  let remainingFrames : ℤ := (frameCount : ℤ) - timestamps.length
  let later : List ℤ :=
    if remainingFrames > 0 then
      let startTime : ℚ := max earlyWindow (duration * (1/10))
      let endTime : ℚ := duration * (9/10)
      let interval : ℚ := (endTime - startTime) / ((remainingFrames : ℚ) + 1)
      laterTimestamps duration startTime interval remainingFrames.toNat
    else []
  -- Remove duplicates and sort, limit to max 15 frames
  (((timestamps ++ later).dedup).insertionSort (· ≤ ·)).take 15

/-! ## Ingestion strategy dispatch and audio-extraction parameters

`VideoFrameExtractor.extractFrames` (lines 42–66) dispatches on the URL:
TikTok → download first; other yt-dlp platforms → stream; everything else →
plain download.  The audio track parameters come from `extractAudioFromUrl`
(lines 334–374, used by the stream strategy with `maxDurationSeconds = 120`)
and `extractAudio` (lines 679–701, used by both download strategies). -/

/-- The list of yt-dlp supported platforms from `extractFrames`. -/
def ytDlpSupportedPlatforms : List String :=
  [ "youtube.com", "youtu.be", "tiktok.com", "instagram.com"
  , "twitter.com", "x.com", "facebook.com", "vimeo.com", "dailymotion.com" ]

def isYtDlpSupported (videoUrl : String) : Bool :=
  ytDlpSupportedPlatforms.any (fun platform => jsIncludes videoUrl platform)

/-- Which ingestion strategy `extractFrames` selects for a URL. -/
inductive IngestStrategy where
  | downloadFirst   -- TikTok: stream URLs expire, download with yt-dlp first
  | stream          -- other yt-dlp platforms: shared stream URL
  | download        -- everything else: direct download
  deriving Repr, DecidableEq

def strategyFor (videoUrl : String) : IngestStrategy :=
  if jsIncludes videoUrl "tiktok.com" then .downloadFirst
  else if isYtDlpSupported videoUrl then .stream
  else .download

/-- The ffmpeg output options an audio extraction run is configured with. -/
structure AudioCmd where
  audioCodec : String
  audioFrequency : ℕ
  audioChannels : ℕ
  /-- `.duration(...)` limit in seconds, when one is set. -/
  maxDuration : Option ℚ
  deriving Repr, DecidableEq

/-- `extractAudioFromUrl`'s ffmpeg invocation (stream strategy; the call
site passes `120`). -/
def extractAudioFromUrlCmd (maxDurationSeconds : ℚ := 120) : AudioCmd :=
  { audioCodec := "pcm_s16le"
  , audioFrequency := 16000
  , audioChannels := 1
  , maxDuration := some maxDurationSeconds }

/-- `extractAudio`'s ffmpeg invocation (both download strategies): no
`.duration(...)` limit is set. -/
def extractAudioCmd : AudioCmd :=
  { audioCodec := "pcm_s16le"
  , audioFrequency := 16000
  , audioChannels := 1
  , maxDuration := none }

/-- The audio extraction command issued for a URL when audio is requested,
per strategy: the stream strategy calls `extractAudioFromUrl(videoUrl, 120)`,
both download strategies call `extractAudio(videoPath)`. -/
def audioCommandFor (videoUrl : String) : AudioCmd :=
  match strategyFor videoUrl with
  | .downloadFirst => extractAudioCmd
  | .stream => extractAudioFromUrlCmd 120
  | .download => extractAudioCmd

/-! ## Temp-file bookkeeping of the download path of `extractFrames`

`video-frame-extractor.ts` lines 66–130.  The model threads the set of
temp files currently on disk.  `extractFrameAtTime` creates and deletes its
frame file internally on both its success and its error path (lines
633–663), so a frame attempt leaves no residue either way and is modelled
by its outcome alone.  `extractAudio`, on success, creates the audio file
that is *returned*, not deleted (line 105: "keep audio for now"). -/

/-- Oracle outcomes of the external operations of the download path. -/
structure DownloadIngestEnv where
  /-- `downloadVideo`: temp video path, or a thrown error. -/
  download : Except String String
  /-- `getVideoDuration` (ffprobe). -/
  duration : Except String ℚ
  /-- `extractFrameAtTime` at a given timestamp: `some base64` on success. -/
  frameAt : ℤ → Option String
  /-- `extractAudio`: audio temp path, or a thrown error. -/
  audio : Except String String

/-- Result type of `extractFrames` (the `VideoExtractionResult` shape). -/
structure VideoExtractionResult where
  frames : List (ℤ × String)
  audioPath : Option String
  duration : ℚ
  deriving Repr, DecidableEq

/-- The download path of `extractFrames videoUrl frameCount extractAudio`,
returning its outcome together with the temp files left on disk.  The outer
`catch` (lines 126–129) re-throws with a wrapping message and performs no
cleanup. -/
def extractFramesDownload (env : DownloadIngestEnv) (frameCount : ℕ)
    (extractAudio : Bool) :
    Except String VideoExtractionResult × List String :=
  let wrap := fun (e : String) => "Failed to extract video frames: " ++ e
  match env.download with
  | .error e => (.error (wrap ("Failed to download video: " ++ e)), [])
  | .ok videoPath =>
    match env.duration with
    | .error e => (.error (wrap e), [videoPath])
    | .ok duration =>
      if duration > 600 then
        -- cleanupFile(videoPath); throw 'Video too long...'
        (.error (wrap "Video too long. Maximum 10 minutes supported."), [])
      else
        let timestamps := calculateSmartTimestamps duration frameCount
        let frames := timestamps.filterMap (fun t =>
          (env.frameAt t).map (fun b => (t, b)))
        let audioPath : Option String :=
          if extractAudio then
            match env.audio with
            | .ok p => some p
            | .error _ => none   -- warn, continue without audio
          else none
        -- Clean up temp video file (but keep audio for now)
        let files : List String :=
          match audioPath with
          | some p => [p]
          | none => []
        if frames = [] then
          (.error (wrap "No frames could be extracted from video"), files)
        else
          (.ok ⟨frames, audioPath, duration⟩, files)

/-- The route-level consumption of the ingest result (`extract.ts` lines
100–137 and the `catch` at 248–254): on an ingest error the route falls back
to metadata-only extraction and touches no files; on success the
transcription track deletes the audio file via `cleanupAudio` on both its
success continuation and its timeout/failure `catch`. -/
def routeAudioHandling
    (ingest : Except String VideoExtractionResult × List String) :
    List String :=
  match ingest with
  | (.error _, files) => files
  | (.ok r, files) =>
    match r.audioPath with
    | some p => files.erase p
    | none => files

/-! ## `AudioTranscriber` (`src/unnamed/part_005`)

The Speech API, `fs`, and ffmpeg are oracles of a `TranscriberEnv`.
`recognize` results are lists of per-result transcripts, joined with
`' '`. -/

structure TranscriberEnv where
  /-- Was a speech client initialized? (credentials present) -/
  hasSpeechClient : Bool
  /-- `fs.statSync(audioPath)` → size in MB, or a thrown error. -/
  statSizeMB : Except String ℚ
  /-- `fs.readFileSync(audioPath)` in the synchronous branch. -/
  readMain : Except String Unit
  /-- Synchronous `recognize` on the whole file: per-result transcripts. -/
  recognizeMain : Except String (List String)
  /-- `ffprobe` in `transcribeInChunks`: duration in seconds. -/
  probe : Except String ℚ
  /-- ffmpeg extraction of chunk `i`. -/
  chunkExtract : ℕ → Except String Unit
  /-- `recognize` on chunk `i` (together with its `readFileSync`). -/
  chunkRecognize : ℕ → Except String (List String)

/-- `AudioTranscriber.transcribeInChunks` (part_005 lines 128–217).
Chunks are fixed 30-second slices; `Promise.all` rejects with the first
chunk-extraction error; each chunk's recognition failure is caught and
becomes the empty transcript. -/
def transcribeInChunksM (env : TranscriberEnv) : Except String String :=
  let chunkDuration : ℚ := 30
  match env.probe with
  | .error e => .error e   -- cleanup of (not yet created) chunks, re-throw
  | .ok duration =>
    let numChunks : ℕ := ⌈duration / chunkDuration⌉.toNat
    match (List.range numChunks).findSome? (fun i =>
        match env.chunkExtract i with
        | .error e => some e
        | .ok _ => none) with
    | some e => .error e   -- Promise.all(chunkPromises) rejected
    | none =>
      let chunkTranscriptions := (List.range numChunks).map (fun i =>
        match env.chunkRecognize i with
        | .ok results => String.intercalate " " results
        | .error _ => "")   -- caught: clean up chunk file, return ''
      .ok (String.intercalate " "
        (chunkTranscriptions.filter (fun t => t ≠ "")))

/-- `AudioTranscriber.transcribeWithGoogleSpeech` (lines 72–122). -/
def transcribeWithGoogleSpeechM (env : TranscriberEnv) :
    Except String String :=
  if env.hasSpeechClient then
    match env.statSizeMB with
    | .error e => .error e
    | .ok fileSizeMB =>
      if fileSizeMB ≤ 10 then
        match env.readMain with
        | .error e => .error e
        | .ok _ =>
          match env.recognizeMain with
          | .ok results =>
            if results.isEmpty then .ok ""
            else .ok (String.intercalate " " results)
          | .error _ =>
            -- synchronous recognition failed: fall back to chunking;
            -- a chunking failure is NOT caught here
            transcribeInChunksM env
      else
        transcribeInChunksM env
  else .error "Speech client not initialized"

/-- `AudioTranscriber.transcribe` (lines 52–66): the `catch` wraps and
RE-THROWS (`throw new Error('Failed to transcribe audio: ...')`).
`transcribeWithGemini` is a stub returning `''`. -/
def transcribeM (env : TranscriberEnv) : Except String String :=
  let attempt : Except String String :=
    if env.hasSpeechClient then transcribeWithGoogleSpeechM env
    else .ok ""   -- transcribeWithGemini: returns empty string
  match attempt with
  | .ok t => .ok t
  | .error e => .error ("Failed to transcribe audio: " ++ e)

/-- Promise.all over the chunk-transcription fan-out, made explicit: the
chunk tasks *complete* in an arbitrary order (`completionOrder`), each
completion delivering `(i, transcript i)`, but `Promise.all` places every
result at its task's index.  `gatherByIndex n events` reads the completed
results back in index order. -/
def gatherByIndex (n : ℕ) (events : List (ℕ × String)) : List String :=
  (List.range n).map (fun i => (events.lookup i).getD "")

/-- `transcribeInChunks`' reassembly, parameterised by the order in which
the concurrent chunk transcriptions complete. -/
def chunkedTranscript (duration : ℚ) (transcript : ℕ → String)
    (completionOrder : List ℕ) : String :=
  let chunkDuration : ℚ := 30
  let numChunks : ℕ := ⌈duration / chunkDuration⌉.toNat
  let events := completionOrder.map (fun i => (i, transcript i))
  let chunkTranscriptions := gatherByIndex numChunks events
  String.intercalate " " (chunkTranscriptions.filter (fun t => t ≠ ""))

/-- The time range covered by chunk `i`: `.seekInput(i * 30).duration(30)`
(part_005 lines 154–162). -/
def chunkStart (i : ℕ) : ℚ := (i : ℚ) * 30

/-! ## `QRCodeExtractor` (`places-resolver.ts` concatenation, lines 708–946)

The image, the canvas, jsQR and the URL parser are oracles.  The six
strategies decode eleven preprocessed variants of the source image, in this
fixed order:

* variant 0 — original pixels (strategy 1)
* variant 1 — resized, 1000px bounding box (strategy 2)
* variant 2 — resized, 2000px bounding box (strategy 3)
* variant 3 — grayscale (strategy 4)
* variant 4 — contrast-enhanced (strategy 5)
* variants 5–10 — full image, four quadrants, center crop (strategy 6)

`normal v` is the payload `jsQR(..., dontInvert)` decodes from variant `v`
(`some s`, possibly empty) or `none`; `inverted v` likewise for the
follow-up `jsQR(..., attemptBoth)` call. -/

structure QREnv where
  /-- `base64Data.length === 0` after stripping the data-URI prefix. -/
  emptyData : Bool
  /-- did `loadImage` succeed?  (failure is caught by the outer catch) -/
  loadOk : Bool
  /-- does strategy `i` throw before decoding (canvas errors)? -/
  strategyThrows : Fin 6 → Bool
  /-- jsQR payload with `inversionAttempts: 'dontInvert'` on variant `v`. -/
  normal : Fin 11 → Option String
  /-- jsQR payload with `inversionAttempts: 'attemptBoth'` on variant `v`. -/
  inverted : Fin 11 → Option String
  /-- `new URL(url)` succeeds with an http/https protocol. -/
  isValidUrl : String → Bool

/-- The strategy a variant belongs to. -/
def variantStrategy (v : Fin 11) : Fin 6 :=
  if h : (v : ℕ) < 5 then ⟨v, by omega⟩ else ⟨5, by omega⟩

/-- `QRCodeExtractor.decodeQRCode` on variant `v` (lines 890–916): the
non-inverted decode is consulted first; only when it yields no payload at
all (`!code || !code.data`) is the inverted decode attempted.  A payload is
returned iff its trimmed form is a valid http/https URL. -/
def decodeQRCodeM (env : QREnv) (v : Fin 11) : Option String :=
  let tryPayload : String → Option String := fun d =>
    let url := jsTrim d
    if env.isValidUrl url then some url else none
  let invPath : Option String :=
    match env.inverted v with
    | some d => if d ≠ "" then tryPayload d else none
    | none => none
  match env.normal v with
  | some d => if d ≠ "" then tryPayload d else invPath
  | none => invPath

/-- JS truthiness filter applied by `if (result) return result;`: a `null`
or empty-string result lets the loop continue. -/
def truthyResult : Option String → Option String
  | none => none
  | some s => if s = "" then none else some s

/-- `tryExtractFromRegions` (lines 865–885): the six region variants in
order, first truthy decode wins. -/
def tryExtractFromRegionsM (env : QREnv) : Option String :=
  [(5 : Fin 11), 6, 7, 8, 9, 10].findSome? (fun v =>
    truthyResult (decodeQRCodeM env v))

/-- The result of strategy `i` (`null` when the strategy throws, which the
per-strategy `catch` in the loop absorbs). -/
def strategyResultM (env : QREnv) (i : Fin 6) : Option String :=
  if env.strategyThrows i then none
  else
    match (i : ℕ) with
    | 0 => decodeQRCodeM env 0
    | 1 => decodeQRCodeM env 1
    | 2 => decodeQRCodeM env 2
    | 3 => decodeQRCodeM env 3
    | 4 => decodeQRCodeM env 4
    | _ => tryExtractFromRegionsM env

/-- `QRCodeExtractor.extractFromBase64` (lines 722–772): empty data →
`null`; `loadImage` failure → caught by the outer catch → `null`; then the
strategy loop with per-strategy catch and the JS-truthy early return. -/
def extractFromBase64M (env : QREnv) : Option String :=
  if env.emptyData then none
  else if ¬ env.loadOk then none
  else
    [(0 : Fin 6), 1, 2, 3, 4, 5].findSome? (fun i =>
      truthyResult (strategyResultM env i))

/-- Modelled from the spec: the Code Decoder contract of §4.3 — "Each
variant is decoded with both normal and inverted polarity.  First valid URL
wins; chain order is a tie-break".  For each variant, in chain order, both
polarities' payloads are candidates, and the first one whose trimmed form
is a valid URL is returned. -/
def specFirstValidUrl (env : QREnv) : Option String :=
  if env.emptyData then none
  else if ¬ env.loadOk then none
  else
    (List.finRange 11).findSome? (fun v =>
      if env.strategyThrows (variantStrategy v) then none
      else
        let valid : Option String → Option String := fun p =>
          match p with
          | some d =>
            let url := jsTrim d
            if env.isValidUrl url then some url else none
          | none => none
        (valid (env.normal v)).orElse (fun _ => valid (env.inverted v)))

/-- The flat first-match reading that the code actually implements: one
scan over the eleven variants in chain order, where the inverted polarity
of a variant is consulted only when its normal decode produced no payload,
and variants of a throwing strategy contribute nothing. -/
def codeFirstUrl (env : QREnv) : Option String :=
  if env.emptyData then none
  else if ¬ env.loadOk then none
  else
    (List.finRange 11).findSome? (fun v =>
      if env.strategyThrows (variantStrategy v) then none
      else truthyResult (decodeQRCodeM env v))

/-! ## Character-level helpers for `GeminiExtractor`

`normalizeTime` and `validateAndNormalize` work with JS regexes,
`parseInt`, `Number`, `toString().padStart(2, '0')` and `split`.  These are
modelled character by character. -/

def digitVal (c : Char) : ℕ := c.toNat - 48

/-- The decimal digit character for `n < 10` (`9` caps larger inputs,
which never occur). -/
def digitChar (n : ℕ) : Char :=
  if n = 0 then '0' else if n = 1 then '1' else if n = 2 then '2'
  else if n = 3 then '3' else if n = 4 then '4' else if n = 5 then '5'
  else if n = 6 then '6' else if n = 7 then '7' else if n = 8 then '8'
  else '9'

/-- Fuel-driven decimal printer (the fuel is an upper bound on the digit
count, so it never runs out when called through `natRepr`). -/
def natReprCore : ℕ → ℕ → List Char
  | 0, _ => []
  | fuel + 1, n =>
    if n < 10 then [digitChar n]
    else natReprCore fuel (n / 10) ++ [digitChar (n % 10)]

/-- Decimal digits of a natural number (JS `Number.prototype.toString` for
integral values). -/
def natRepr (n : ℕ) : List Char := natReprCore (n + 1) n

/-- `String(z)` for an integer. -/
def intRepr (z : ℤ) : List Char :=
  if z < 0 then '-' :: natRepr (-z).toNat else natRepr z.toNat

/-- `String(n).padStart(2, '0')` for a natural number. -/
def pad2 (n : ℕ) : List Char :=
  let s := natRepr n
  if s.length < 2 then '0' :: s else s

/-- `String(z).padStart(2, '0')` for an integer. -/
def padInt2 (z : ℤ) : List Char :=
  let s := intRepr z
  if s.length < 2 then '0' :: s else s

/-- Value of a (known all-digit) character list. -/
def natOfDigits (l : List Char) : ℕ :=
  l.foldl (fun acc c => 10 * acc + digitVal c) 0

/-- JS `parseInt(s)` (radix 10): skip leading whitespace, optional sign,
longest digit prefix; `none` models `NaN`. -/
def parseIntJS (l : List Char) : Option ℤ :=
  let go : List Char → Option ℕ := fun l =>
    let ds := l.takeWhile Char.isDigit
    if ds = [] then none else some (natOfDigits ds)
  let l := l.dropWhile isWs
  match l with
  | '+' :: rest => (go rest).map (fun n => (n : ℤ))
  | '-' :: rest => (go rest).map (fun n => -(n : ℤ))
  | _ => (go l).map (fun n => (n : ℤ))

/-- `/^\d{4}-\d{2}-\d{2}/.test(s)` (prefix match). -/
def startsYMD : List Char → Bool
  | a :: b :: c :: d :: s1 :: e :: f :: s2 :: g :: h :: _ =>
    a.isDigit && b.isDigit && c.isDigit && d.isDigit && s1 == '-' &&
    e.isDigit && f.isDigit && s2 == '-' && g.isDigit && h.isDigit
  | _ => false

/-- `/^\d{2}\/\d{2}\/\d{4}/.test(s)` (prefix match). -/
def startsMDY : List Char → Bool
  | a :: b :: s1 :: c :: d :: s2 :: e :: f :: g :: h :: _ =>
    a.isDigit && b.isDigit && s1 == '/' && c.isDigit && d.isDigit &&
    s2 == '/' && e.isDigit && f.isDigit && g.isDigit && h.isDigit
  | _ => false

/-- `/^\d{2}:\d{2}:\d{2}$/.test(s)`. -/
def isHHMMSS : List Char → Bool
  | [a, b, c1, c, d, c2, e, f] =>
    a.isDigit && b.isDigit && c1 == ':' && c.isDigit && d.isDigit &&
    c2 == ':' && e.isDigit && f.isDigit
  | _ => false

/-- `/^\d{2}:\d{2}$/.test(s)`. -/
def isHHMM : List Char → Bool
  | [a, b, c1, c, d] =>
    a.isDigit && b.isDigit && c1 == ':' && c.isDigit && d.isDigit
  | _ => false

/-! The unanchored search `s.match(/(\d{1,2}):?(\d{2})?\s*(am|pm)/i)`,
with the regex engine's leftmost-match and greedy-with-backtracking
semantics specialised to this pattern.  The optional `:?` is modelled as
"consume a colon when present": when a colon is present, the backtracking
alternative that skips it always fails (the colon then stops `(\d{2})?`,
`\s*` and `(am|pm)` alike), so the two are observationally equal. -/

/-- `(am|pm)` head test (case-insensitive): `some true` for pm. -/
def ampmHead : List Char → Option Bool
  | c1 :: c2 :: _ =>
    if (c1 == 'a' || c1 == 'A') && (c2 == 'm' || c2 == 'M') then some false
    else if (c1 == 'p' || c1 == 'P') && (c2 == 'm' || c2 == 'M') then some true
    else none
  | _ => none

/-- `\s*(am|pm)` at the current position. -/
def tryEnd (h m : ℕ) (l : List Char) : Option (ℕ × ℕ × Bool) :=
  (ampmHead (l.dropWhile isWs)).map (fun pm => (h, m, pm))

/-- `(\d{2})?\s*(am|pm)`: greedy optional two-digit minutes group, with
backtracking to the empty group. -/
def tryMinutes (h : ℕ) (l : List Char) : Option (ℕ × ℕ × Bool) :=
  match l with
  | d1 :: d2 :: rest =>
    if d1.isDigit && d2.isDigit then
      (tryEnd h (10 * digitVal d1 + digitVal d2) rest).orElse
        (fun _ => tryEnd h 0 l)
    else tryEnd h 0 l
  | _ => tryEnd h 0 l

/-- `:?(\d{2})?\s*(am|pm)` after the hours group. -/
def tryAfterHours (h : ℕ) (l : List Char) : Option (ℕ × ℕ × Bool) :=
  match l with
  | ':' :: rest => tryMinutes h rest
  | _ => tryMinutes h l

/-- One match attempt of the full pattern at the current position:
greedy `(\d{1,2})` with backtracking from two digits to one. -/
def matchAmPmAt : List Char → Option (ℕ × ℕ × Bool)
  | [] => none
  | c1 :: rest1 =>
    if c1.isDigit then
      match rest1 with
      | c2 :: rest2 =>
        if c2.isDigit then
          (tryAfterHours (10 * digitVal c1 + digitVal c2) rest2).orElse
            (fun _ => tryAfterHours (digitVal c1) rest1)
        else tryAfterHours (digitVal c1) rest1
      | [] => tryAfterHours (digitVal c1) []
    else none

/-- Leftmost match of the am/pm pattern (the JS `match` search). -/
def findAmPm : List Char → Option (ℕ × ℕ × Bool)
  | [] => none
  | c :: t => (matchAmPmAt (c :: t)).orElse (fun _ => findAmPm t)

/-- `s.split(':')`. -/
def splitColon : List Char → List (List Char)
  | [] => [[]]
  | c :: t =>
    let r := splitColon t
    if c == ':' then [] :: r
    else
      match r with
      | h :: rest => (c :: h) :: rest
      | [] => [[c]]

/-- `GeminiExtractor.normalizeTime` (`places-resolver.ts` concatenation,
lines 541–595): `.error` models a `throw`. -/
def normalizeTime (time : String) : Except String String :=
  if time = "" then .error "Invalid time format"
  else
    let t := jsTrimList time.data
    if startsYMD t || startsMDY t then
      .error ("Invalid time format: " ++ String.mk t ++
        " (appears to be a date, not a time)")
    else if isHHMMSS t then .ok (String.mk t)
    else if isHHMM t then .ok (String.mk t ++ ":00")
    else
      match findAmPm t with
      | some (h0, minutes, isPm) =>
        let hours := if isPm && h0 ≠ 12 then h0 + 12
          else if !isPm && h0 = 12 then 0 else h0
        .ok (String.mk (pad2 hours) ++ ":" ++ String.mk (pad2 minutes) ++ ":00")
      | none =>
        if ':' ∈ t then
          let timeParts := splitColon t
          if timeParts.length ≥ 2 then
            match parseIntJS (timeParts.getD 0 []) with
            | some hours =>
              if 0 ≤ hours ∧ hours ≤ 23 then
                match parseIntJS (timeParts.getD 1 []) with
                | some minutes =>
                  if 0 ≤ minutes ∧ minutes ≤ 59 then
                    .ok (String.mk (padInt2 hours) ++ ":" ++
                      String.mk (padInt2 minutes) ++ ":00")
                  else .error ("Invalid time format: " ++ String.mk t)
                | none => .error ("Invalid time format: " ++ String.mk t)
              else .error ("Invalid time format: " ++ String.mk t)
            | none => .error ("Invalid time format: " ++ String.mk t)
          else .error ("Invalid time format: " ++ String.mk t)
        else .error ("Invalid time format: " ++ String.mk t)

/-! ## JS `Date` construction (`new Date(year, monthIndex, day)`)

The ECMAScript `Date(y, m, d)` constructor normalises out-of-range month
and day by rollover and maps two-digit years to 1900+y.  The proleptic
Gregorian day arithmetic uses the standard civil-from-days /
days-from-civil algorithms over `ℤ` with floor division. -/

def daysFromCivil (y m d : ℤ) : ℤ :=
  let y := y - (if m ≤ 2 then 1 else 0)
  let era := y.fdiv 400
  let yoe := y - era * 400
  let mp := (m + 9).emod 12
  let doy := (153 * mp + 2).fdiv 5 + d - 1
  let doe := yoe * 365 + yoe.fdiv 4 - yoe.fdiv 100 + doy
  era * 146097 + doe - 719468

def civilFromDays (z : ℤ) : ℤ × ℤ × ℤ :=
  let z := z + 719468
  let era := z.fdiv 146097
  let doe := z - era * 146097
  let yoe := (doe - doe.fdiv 1460 + doe.fdiv 36524 - doe.fdiv 146096).fdiv 365
  let y := yoe + era * 400
  let doy := doe - (365 * yoe + yoe.fdiv 4 - yoe.fdiv 100)
  let mp := (5 * doy + 2).fdiv 153
  let d := doy - (153 * mp + 2).fdiv 5 + 1
  let m := mp + (if mp < 10 then 3 else -9)
  (y + (if m ≤ 2 then 1 else 0), m, d)

/-- `new Date(year, monthIndex, day)` → local `(getFullYear, getMonth,
getDate)` components. -/
def jsMakeDate (year monthIndex day : ℤ) : ℤ × ℤ × ℤ :=
  let yr := if 0 ≤ year ∧ year ≤ 99 then year + 1900 else year
  let ym := yr + monthIndex.fdiv 12
  let m := monthIndex.emod 12 + 1
  let c := civilFromDays (daysFromCivil ym m day)
  (c.1, c.2.1 - 1, c.2.2)

/-- `` `${year}-${month}-${day}` `` with two-digit padding of month and day
(as in `validateAndNormalize`, using `getMonth() + 1`). -/
def formatYMD (fullYear month0 day : ℤ) : String :=
  String.mk (intRepr fullYear) ++ "-" ++ String.mk (padInt2 (month0 + 1)) ++
    "-" ++ String.mk (padInt2 day)

/-- `s.split('/')`. -/
def splitSlash : List Char → List (List Char)
  | [] => [[]]
  | c :: t =>
    let r := splitSlash t
    if c == '/' then [] :: r
    else
      match r with
      | h :: rest => (c :: h) :: rest
      | [] => [[c]]

/-- `s.split('-')`. -/
def splitDash : List Char → List (List Char)
  | [] => [[]]
  | c :: t =>
    let r := splitDash t
    if c == '-' then [] :: r
    else
      match r with
      | h :: rest => (c :: h) :: rest
      | [] => [[c]]

/-- `/^\d{4}-\d{2}-\d{2}$/.test(s)`. -/
def isExactYMD : List Char → Bool
  | [a, b, c, d, s1, e, f, s2, g, h] =>
    a.isDigit && b.isDigit && c.isDigit && d.isDigit && s1 == '-' &&
    e.isDigit && f.isDigit && s2 == '-' && g.isDigit && h.isDigit
  | _ => false

/-- `/^\d{1,2}\/\d{1,2}\/\d{4}$/.test(s)`. -/
def isExactMDY (l : List Char) : Bool :=
  match splitSlash l with
  | [a, b, c] =>
    (a.length = 1 || a.length = 2) && a.all Char.isDigit &&
    (b.length = 1 || b.length = 2) && b.all Char.isDigit &&
    c.length = 4 && c.all Char.isDigit
  | _ => false

/-- `/^\d{4}\/\d{1,2}\/\d{1,2}$/.test(s)`. -/
def isExactYMDslash (l : List Char) : Bool :=
  match splitSlash l with
  | [a, b, c] =>
    a.length = 4 && a.all Char.isDigit &&
    (b.length = 1 || b.length = 2) && b.all Char.isDigit &&
    (c.length = 1 || c.length = 2) && c.all Char.isDigit
  | _ => false

/-- `s.split(/\s+/)`: maximal whitespace runs separate the pieces; a
leading or trailing run contributes an empty piece, and `""` maps to
`[""]`, exactly as in JS. -/
def jsSplitWs (l : List Char) : List (List Char) :=
  go [] l
where
  go (cur : List Char) : List Char → List (List Char)
    | [] => [cur.reverse]
    | c :: t =>
      if isWs c then cur.reverse :: go [] (t.dropWhile isWs)
      else go (c :: cur) t
  termination_by l => l.length
  decreasing_by
    · exact Nat.lt_succ_of_le ((List.dropWhile_suffix _).sublist.length_le)
    · simp

/-- `GeminiExtractor.limitDescription` (lines 600–607). -/
def limitDescription (description : Option String) : Option String :=
  if ¬ truthy description then none
  else
    let trimmed := jsTrimList (orEmpty description).data
    let words := jsSplitWs trimmed
    if words.length ≤ 25 then some (String.mk trimmed)
    else some (String.intercalate " " ((words.take 25).map String.mk) ++ "...")

/-- The raw loosely-typed object parsed from the model's JSON response. -/
structure RawExtracted where
  title : Option String := none
  description : Option String := none
  date : Option String := none
  time : Option String := none
  endTime : Option String := none
  location : Option String := none
  deriving Repr, DecidableEq

/-- The `ExtractedEvent` interface. -/
structure ExtractedEvent where
  title : String
  description : Option String
  date : String
  time : Option String
  endTime : Option String
  location : Option String
  deriving Repr, DecidableEq

/-- The untyped `new Date(dateStr)` string parser used by
`validateAndNormalize`'s final fallback branch: an external,
implementation-defined capability, modelled as an oracle returning local
`(getFullYear, getMonth, getDate)` components, or `none` for an invalid
date. -/
structure GeminiEnv where
  jsParseDate : String → Option (ℤ × ℤ × ℤ)

/-- `GeminiExtractor.validateAndNormalize` (lines 609–705). -/
def validateAndNormalize (env : GeminiEnv) (extracted : RawExtracted) :
    Except String ExtractedEvent :=
  if ¬ truthy extracted.title then .error "Title is required"
  else
    let dateResult : Except String (Option String) :=
      if truthy extracted.date ∧ extracted.date ≠ some "null" then
        let dateStr := jsTrimList (orEmpty extracted.date).data
        if isExactYMD dateStr then
          match (splitDash dateStr).map natOfDigits with
          | [year, month, day] =>
            let c := jsMakeDate (year : ℤ) ((month : ℤ) - 1) (day : ℤ)
            if c.1 = (year : ℤ) ∧ c.2.1 = (month : ℤ) - 1 ∧ c.2.2 = (day : ℤ) then
              .ok (some (String.mk dateStr))
            else .error "Invalid date format"
          | _ => .error "Invalid date format"
        else if isExactMDY dateStr then
          match (splitSlash dateStr).map natOfDigits with
          | [month, day, year] =>
            let c := jsMakeDate (year : ℤ) ((month : ℤ) - 1) (day : ℤ)
            .ok (some (formatYMD c.1 c.2.1 c.2.2))
          | _ => .error ("Invalid date format: " ++ String.mk dateStr)
        else if isExactYMDslash dateStr then
          match (splitSlash dateStr).map natOfDigits with
          | [year, month, day] =>
            let c := jsMakeDate (year : ℤ) ((month : ℤ) - 1) (day : ℤ)
            .ok (some (formatYMD c.1 c.2.1 c.2.2))
          | _ => .error ("Invalid date format: " ++ String.mk dateStr)
        else
          match env.jsParseDate (String.mk dateStr) with
          | none => .error ("Invalid date format: " ++ String.mk dateStr)
          | some c => .ok (some (formatYMD c.1 c.2.1 c.2.2))
      else .ok none
    match dateResult with
    | .error e => .error e
    | .ok normalizedDate =>
      let time : Option String :=
        if truthy extracted.time then
          match normalizeTime (orEmpty extracted.time) with
          | .ok t => some t
          | .error _ => none   -- warn, treat as all-day event
        else none
      let endTime : Option String :=
        if truthy extracted.endTime then
          match normalizeTime (orEmpty extracted.endTime) with
          | .ok t => some t
          | .error _ => none   -- warn, ignore endTime
        else extracted.endTime
      let finalDate := (normalizedDate.getD "")
      .ok
        { title := jsTrim (orEmpty extracted.title)
        , description := limitDescription extracted.description
        , date := finalDate
        , time := time
        , endTime := endTime
        , location := extracted.location.map jsTrim }

/-! # Claims -/

/-- **C1.** In the Stage-3 merge for a video URL: the frame analysis is the
winning candidate iff it has a truthy title and date (its title, date and
location are returned unchanged — in particular a complete metadata
analysis with a different title loses the tie-break); otherwise the
description analysis wins under the same test; otherwise the final
extraction runs over the space-joined concatenation of every non-empty
textual signal (metadata title/description, transcript, frame fields,
description-analysis fields, the raw input URL). -/
theorem fusion_priority_policy
    (f d : DraftEvent) (tr : String) (mt md : Option String) (data : String)
    (oracle : String → DraftEvent) :
    ((truthy f.title ∧ truthy f.date) →
      (mergeStage3 f d tr mt md data oracle).title = f.title ∧
      (mergeStage3 f d tr mt md data oracle).date = f.date ∧
      (mergeStage3 f d tr mt md data oracle).location = f.location) ∧
    (¬ (truthy f.title ∧ truthy f.date) →
      (truthy d.title ∧ truthy d.date) →
      (mergeStage3 f d tr mt md data oracle).title = d.title ∧
      (mergeStage3 f d tr mt md data oracle).date = d.date) ∧
    (¬ (truthy f.title ∧ truthy f.date) →
      ¬ (truthy d.title ∧ truthy d.date) →
      (mergeStage3 f d tr mt md data oracle).title =
        (oracle (String.intercalate " " (List.filter (fun s => s ≠ "")
          [ orEmpty mt, orEmpty md, tr
          , orEmpty f.title, orEmpty f.date, orEmpty f.time
          , orEmpty f.location, orEmpty f.description
          , orEmpty d.title, orEmpty d.date, orEmpty d.time
          , orEmpty d.location, orEmpty d.description, data ]))).title) := by
  refine ⟨fun h => ?_, fun hn h => ?_, fun hn hn2 => ?_⟩
  · simp only [mergeStage3, if_pos h]
    split <;> (repeat' split) <;> simp
  · simp only [mergeStage3, if_neg hn, if_pos h]
    repeat' split
    all_goals simp
  · simp only [mergeStage3, combinedText, if_neg hn, if_neg hn2]
    repeat' split
    all_goals simp

/-- Witness for C1: both candidates complete with different titles; the
frame title wins. -/
theorem fusion_priority_policy_witness :
    (truthy (some "Jazz Night") ∧ truthy (some "2024-12-05")) ∧
    (mergeStage3
      { title := some "Jazz Night", date := some "2024-12-05" }
      { title := some "Other Title", date := some "2024-12-06" }
      "" none none "https://example.com/v" (fun _ => {})).title =
      some "Jazz Night" :=
  ⟨⟨by decide, by decide⟩,
    ((fusion_priority_policy
      { title := some "Jazz Night", date := some "2024-12-05" }
      { title := some "Other Title", date := some "2024-12-06" }
      "" none none "https://example.com/v" (fun _ => {})).1
      ⟨by decide, by decide⟩).1⟩

/-- **C2, counterexample.**  In the frame-wins branch there is no all-day
normalization: a complete frame candidate with no `time` and
`endTime = "22:00:00"` is returned with its `endTime` intact, contradicting
the claim that every merged candidate with absent `time` has its `endTime`
cleared. -/
theorem frame_branch_keeps_endtime_counterexample :
    (mergeStage3
      { title := some "Jazz Night", date := some "2024-12-05"
      , endTime := some "22:00:00" }
      {} "" none none "https://example.com/v" (fun _ => {})).time = none ∧
    (mergeStage3
      { title := some "Jazz Night", date := some "2024-12-05"
      , endTime := some "22:00:00" }
      {} "" none none "https://example.com/v" (fun _ => {})).endTime =
      some "22:00:00" := by
  constructor <;> rfl

/-- **C2, amended.**  The all-day normalization (clearing a time-of-day
`endTime` when `time` is absent) is applied in the description-wins and
combined branches only: whenever the frame analysis is not complete, a
merged candidate with a falsy `time` has a falsy `endTime`.  The frame-wins
branch leaves `endTime` untouched (see the counterexample). -/
theorem all_day_endtime_cleared_outside_frame_branch
    (f d : DraftEvent) (tr : String) (mt md : Option String) (data : String)
    (oracle : String → DraftEvent)
    (hf : ¬ (truthy f.title ∧ truthy f.date)) :
    ¬ truthy (mergeStage3 f d tr mt md data oracle).time →
    ¬ truthy (mergeStage3 f d tr mt md data oracle).endTime := by
  simp only [mergeStage3, if_neg hf]
  repeat' split
  all_goals simp_all [truthy]

/-- Witness for the amended C2. -/
theorem all_day_endtime_cleared_witness :
    (¬ (truthy (none : Option String) ∧ truthy (none : Option String))) ∧
    ¬ truthy (mergeStage3 {}
      { title := some "Street Fair", date := some "2024-12-05"
      , endTime := some "22:00:00" }
      "" none none "https://example.com/v" (fun _ => {})).endTime :=
  ⟨by decide,
    all_day_endtime_cleared_outside_frame_branch {}
      { title := some "Street Fair", date := some "2024-12-05"
      , endTime := some "22:00:00" }
      "" none none "https://example.com/v" (fun _ => {})
      (by decide) (by decide)⟩

/-- **C7, counterexample.**  For a TikTok URL the download-first strategy
extracts audio with `extractAudio`, whose ffmpeg invocation sets no
duration limit: the extracted track is not bounded to the first ~120
seconds, contradicting "bounded-length track under every strategy". -/
theorem tiktok_audio_duration_unbounded :
    strategyFor "https://www.tiktok.com/@user/video/123" =
      IngestStrategy.downloadFirst ∧
    (audioCommandFor "https://www.tiktok.com/@user/video/123").maxDuration =
      none := by
  constructor <;> rfl

/-- **C7, amended.**  Under every strategy the audio is extracted as mono
16kHz PCM (`pcm_s16le`); the 120-second bound, however, is applied only by
the stream strategy (`extractAudioFromUrl`), while both download-based
strategies (TikTok download-first and the generic download path) extract
the full-length track. -/
theorem audio_params_per_strategy (url : String) :
    (audioCommandFor url).audioCodec = "pcm_s16le" ∧
    (audioCommandFor url).audioFrequency = 16000 ∧
    (audioCommandFor url).audioChannels = 1 ∧
    (strategyFor url = IngestStrategy.stream →
      (audioCommandFor url).maxDuration = some 120) ∧
    (strategyFor url ≠ IngestStrategy.stream →
      (audioCommandFor url).maxDuration = none) := by
  unfold audioCommandFor
  rcases h : strategyFor url <;>
    simp [extractAudioCmd, extractAudioFromUrlCmd]

/-- Witness for the amended C7, at a YouTube short-link URL (stream
strategy). -/
theorem audio_params_per_strategy_witness :
    (strategyFor "https://youtu.be/dQw4w9WgXcQ" = IngestStrategy.stream) ∧
    (audioCommandFor "https://youtu.be/dQw4w9WgXcQ").maxDuration =
      some 120 :=
  ⟨by decide,
    (audio_params_per_strategy "https://youtu.be/dQw4w9WgXcQ").2.2.2.1
      (by decide)⟩

/-- The environment of the C3 counterexample: credentials present, a small
file, synchronous recognition fails, and the chunked fallback's ffprobe
fails. -/
def envC3 : TranscriberEnv :=
  { hasSpeechClient := true
  , statSizeMB := .ok 1
  , readMain := .ok ()
  , recognizeMain := .error "quota exceeded"
  , probe := .error "ffprobe failed"
  , chunkExtract := fun _ => .ok ()
  , chunkRecognize := fun _ => .ok [] }

/-- **C3, counterexample.**  `transcribe` does NOT always absorb internal
failures: when synchronous recognition fails and the chunked fallback's
ffprobe then fails, `transcribe`'s own catch re-throws a wrapped error to
its caller instead of returning `""`. -/
theorem transcribe_propagates_chunked_failure :
    transcribeM envC3 =
      .error "Failed to transcribe audio: ffprobe failed" := by
  rfl

/-- **C3, amended.**  `transcribe` absorbs failures at specific layers
only: with no credentials it returns `""` without error; a synchronous
recognition failure falls back to chunked transcription; and individual
chunk-recognition failures are absorbed as empty chunk transcripts (the
result is `ok` whatever `chunkRecognize` does).  But a failure of the
chunk-splitting path itself (ffprobe or chunk extraction) propagates to the
caller as a thrown `Failed to transcribe audio: ...` error; it is the HTTP
route, not `transcribe`, that absorbs it. -/
theorem transcribe_absorption_layers (env : TranscriberEnv) (s d : ℚ) :
    (env.hasSpeechClient = false → transcribeM env = .ok "") ∧
    (env.hasSpeechClient = true → env.statSizeMB = .ok s → s ≤ 10 →
      env.readMain = .ok () → (∀ r, env.recognizeMain ≠ .ok r) →
      env.probe = .ok d → (∀ i, env.chunkExtract i = .ok ()) →
      ∃ t, transcribeM env = .ok t) := by
  constructor
  · intro h
    simp [transcribeM, h]
  · intro hc hstat hsize hread hrec hprobe hchunk
    rcases hrecE : env.recognizeMain with e | r
    · have hfind : (List.range ⌈d / 30⌉.toNat).findSome? (fun i =>
          match env.chunkExtract i with
          | .error e => some e
          | .ok _ => none) = none := by
        apply List.findSome?_eq_none_iff.mpr
        intro i _
        rw [hchunk i]
      exact ⟨_, by
        simp only [transcribeM, transcribeWithGoogleSpeechM, hc, if_true,
          hstat, if_pos hsize, hread, hrecE, transcribeInChunksM, hprobe]
        rw [hfind]⟩
    · exact absurd hrecE (hrec r)

/-- Witness for the amended C3: one environment per absorption layer. -/
theorem transcribe_absorption_layers_witness :
    transcribeM { envC3 with hasSpeechClient := false } = .ok "" ∧
    ∃ t, transcribeM
      { envC3 with
          probe := .ok 45,
          chunkRecognize := fun _ => .error "chunk recognition failed" } =
        .ok t :=
  ⟨(transcribe_absorption_layers
      { envC3 with hasSpeechClient := false } 0 0).1 rfl,
    (transcribe_absorption_layers
      { envC3 with
          probe := .ok 45,
          chunkRecognize := fun _ => .error "chunk recognition failed" }
      1 45).2 rfl rfl (by norm_num) rfl
      (by intro r h; exact Except.noConfusion h) rfl (fun _ => rfl)⟩

/-- The environment of the C4 run: download and audio extraction succeed,
every frame extraction fails. -/
def envC4 : DownloadIngestEnv :=
  { download := .ok "temp/video-frames/video-1.mp4"
  , duration := .ok 100
  , frameAt := fun _ => none
  , audio := .ok "temp/video-frames/audio-1.wav" }

/-- **C4.**  The audio temp file is NOT released on every control path: on
the path where audio extraction succeeds but zero frames are extracted,
`extractFrames` throws with the audio file still on disk, and the route's
fallback (which never receives the audio handle) cannot release it — the
file survives the whole extraction run. -/
theorem audio_file_leaks_when_no_frames :
    extractFramesDownload envC4 5 true =
      (.error
        "Failed to extract video frames: No frames could be extracted from video",
       ["temp/video-frames/audio-1.wav"]) ∧
    routeAudioHandling (extractFramesDownload envC4 5 true) =
      ["temp/video-frames/audio-1.wav"] := by
  have h600 : ¬ ((100 : ℚ) > 600) := by norm_num
  have hrun : extractFramesDownload envC4 5 true =
      (.error
        "Failed to extract video frames: No frames could be extracted from video",
       ["temp/video-frames/audio-1.wav"]) := by
    simp [extractFramesDownload, envC4, h600]
  exact ⟨hrun, by rw [hrun]; rfl⟩

section FrameSampler

lemma mem_earlyTimestamps {duration earlyWindow : ℚ} {x : ℤ}
    (hx : x ∈ earlyTimestamps duration earlyWindow) :
    0 ≤ x ∧ (x : ℚ) < duration := by
  unfold earlyTimestamps at hx
  rcases List.mem_filterMap.mp hx with ⟨k, -, hk⟩
  by_cases h1 : ((5 + 10 * k : ℕ) : ℚ) < earlyWindow
  · rw [if_pos h1] at hk
    by_cases h2 : ((5 + 10 * k : ℕ) : ℚ) < duration
    · rw [if_pos h2] at hk
      obtain rfl : ((5 + 10 * k : ℕ) : ℤ) = x := Option.some.inj hk
      constructor
      · positivity
      · push_cast at *
        assumption
    · rw [if_neg h2] at hk
      cases hk
  · rw [if_neg h1] at hk
    cases hk

lemma mem_laterTimestamps {duration startTime interval : ℚ} {n : ℕ} {x : ℤ}
    (hst : 0 ≤ startTime) (hint : 0 ≤ interval)
    (hx : x ∈ laterTimestamps duration startTime interval n) :
    0 ≤ x ∧ (x : ℚ) < duration := by
  unfold laterTimestamps at hx
  rcases List.mem_filterMap.mp hx with ⟨i, -, hi⟩
  by_cases hc : startTime + interval * ((i : ℚ) + 1) < duration
  · rw [if_pos hc] at hi
    obtain rfl : ⌊startTime + interval * ((i : ℚ) + 1)⌋ = x :=
      Option.some.inj hi
    refine ⟨?_, ?_⟩
    · refine Int.le_floor.mpr ?_
      push_cast
      have hcast : (0:ℚ) ≤ (i : ℚ) := Nat.cast_nonneg i
      have hi1 : (0:ℚ) ≤ (i : ℚ) + 1 := by linarith
      have : 0 ≤ interval * ((i : ℚ) + 1) := mul_nonneg hint hi1
      linarith
    · calc ((⌊startTime + interval * ((i : ℚ) + 1)⌋ : ℤ) : ℚ)
          ≤ startTime + interval * ((i : ℚ) + 1) := Int.floor_le _
        _ < duration := hc
  · rw [if_neg hc] at hi
    cases hi

/-- Generic core of the frame-sampler properties: dedup, sort ascending,
cap at 15, keep the minimum `0`. -/
lemma dedup_sort_take_spec (duration : ℚ) (all : List ℤ)
    (hall : ∀ x ∈ all, 0 ≤ x ∧ (x : ℚ) < duration) (h0 : (0 : ℤ) ∈ all) :
    (0 : ℤ) ∈ ((all.dedup.insertionSort (· ≤ ·)).take 15) ∧
    ((all.dedup.insertionSort (· ≤ ·)).take 15).Chain' (· < ·) ∧
    ((all.dedup.insertionSort (· ≤ ·)).take 15).length ≤ 15 ∧
    ∀ x ∈ ((all.dedup.insertionSort (· ≤ ·)).take 15), (x : ℚ) < duration := by
  set s := all.dedup.insertionSort (· ≤ ·) with hs
  have hsort : s.Sorted (· ≤ ·) := List.sorted_insertionSort _ _
  have hperm : List.Perm s all.dedup := List.perm_insertionSort _ _
  have hnodup : s.Nodup := hperm.nodup_iff.mpr (List.nodup_dedup _)
  have hmem : ∀ x : ℤ, x ∈ s ↔ x ∈ all := fun x =>
    hperm.mem_iff.trans (List.mem_dedup)
  have hpairlt : s.Pairwise (· < ·) :=
    (List.Pairwise.and hsort hnodup).imp
      (fun hab => lt_of_le_of_ne hab.1 hab.2)
  have h0s : (0 : ℤ) ∈ s := (hmem 0).mpr h0
  refine ⟨?_, ?_, ?_, ?_⟩
  · -- `0` is the minimum, hence the head, hence survives `take 15`
    rcases hcons : s with _ | ⟨hd, tl⟩
    · rw [hcons] at h0s; cases h0s
    · have hhd0 : hd = 0 := by
        rcases List.mem_cons.mp (hcons ▸ h0s) with h | h
        · omega
        · have h1 : hd ≤ 0 := (List.pairwise_cons.mp (hcons ▸ hsort)).1 0 h
          have h2 : 0 ≤ hd :=
            (hall hd ((hmem hd).mp (hcons ▸ List.mem_cons_self hd tl))).1
          omega
      subst hhd0
      rw [show (15 : ℕ) = 14 + 1 from rfl, List.take_succ_cons]
      exact List.mem_cons_self _ _
  · exact List.chain'_iff_pairwise.mpr (List.Pairwise.take hpairlt)
  · exact List.length_take_le _ _
  · intro x hx
    exact (hall x ((hmem x).mp (List.mem_of_mem_take hx))).2

/-- **C6.**  For every duration > 0 and desiredCount ≥ 1, the smart frame
sampler's output contains timestamp 0, is strictly ascending (hence
duplicate-free), has at most 15 entries, and every timestamp is strictly
below the duration. -/
theorem calculateSmartTimestamps_spec (duration : ℚ) (frameCount : ℕ)
    (hdur : 0 < duration) (hcount : 1 ≤ frameCount) :
    (0 : ℤ) ∈ calculateSmartTimestamps duration frameCount ∧
    (calculateSmartTimestamps duration frameCount).Chain' (· < ·) ∧
    (calculateSmartTimestamps duration frameCount).length ≤ 15 ∧
    ∀ x ∈ calculateSmartTimestamps duration frameCount, (x : ℚ) < duration := by
  have hdef : calculateSmartTimestamps duration frameCount =
      ((((0 :: earlyTimestamps duration (min 60 (duration * (1/5)))) ++
        (if ((frameCount : ℤ) -
            (0 :: earlyTimestamps duration (min 60 (duration * (1/5)))).length) > 0
          then laterTimestamps duration
            (max (min 60 (duration * (1/5))) (duration * (1/10)))
            ((duration * (9/10) -
                max (min 60 (duration * (1/5))) (duration * (1/10))) /
              ((((frameCount : ℤ) -
                (0 :: earlyTimestamps duration
                  (min 60 (duration * (1/5)))).length : ℤ) : ℚ) + 1))
            ((frameCount : ℤ) -
              (0 :: earlyTimestamps duration
                (min 60 (duration * (1/5)))).length).toNat
          else [])).dedup.insertionSort (· ≤ ·)).take 15) := rfl
  rw [hdef]
  apply dedup_sort_take_spec
  · intro x hx
    simp only [List.mem_append, List.mem_cons] at hx
    rcases hx with (rfl | hx) | hx
    · exact ⟨le_refl 0, by exact_mod_cast hdur⟩
    · exact mem_earlyTimestamps hx
    · have hew : (0 : ℚ) < min 60 (duration * (1/5)) := by
        apply lt_min <;> [norm_num; positivity]
      split at hx
      · refine mem_laterTimestamps ?_ ?_ hx
        · exact le_max_of_le_left hew.le
        · apply div_nonneg
          · have h1 : min 60 (duration * (1/5)) ≤ duration * (9/10) := by
              refine le_trans (min_le_right _ _) ?_
              linarith
            have h2 : duration * (1/10) ≤ duration * (9/10) := by linarith
            have := max_le h1 h2
            linarith
          · have hpos :
                (0 : ℤ) < (frameCount : ℤ) -
                  (0 :: earlyTimestamps duration
                    (min 60 (duration * (1/5)))).length := by assumption
            have : (0 : ℚ) < (((frameCount : ℤ) -
                (0 :: earlyTimestamps duration
                  (min 60 (duration * (1/5)))).length : ℤ) : ℚ) := by
              exact_mod_cast hpos
            linarith
      · cases hx
  · exact List.mem_append_left _ (List.mem_cons_self _ _)

/-- Witness for C6 at `duration = 100`, `desiredCount = 5`. -/
theorem calculateSmartTimestamps_spec_witness :
    ((0 : ℚ) < 100 ∧ 1 ≤ 5) ∧
    ((0 : ℤ) ∈ calculateSmartTimestamps 100 5 ∧
     (calculateSmartTimestamps 100 5).Chain' (· < ·) ∧
     (calculateSmartTimestamps 100 5).length ≤ 15 ∧
     ∀ x ∈ calculateSmartTimestamps 100 5, (x : ℚ) < 100) :=
  ⟨⟨by norm_num, by norm_num⟩,
    calculateSmartTimestamps_spec 100 5 (by norm_num) (by norm_num)⟩

end FrameSampler

section ChunkOrdering

lemma lookup_map_self (f : ℕ → String) {i : ℕ} :
    ∀ (co : List ℕ), i ∈ co →
      (co.map (fun j => (j, f j))).lookup i = some (f i)
  | [], h => absurd h (List.not_mem_nil i)
  | j :: co, h => by
    by_cases hij : i = j
    · subst hij
      simp [List.lookup_cons]
    · have hmem : i ∈ co := by
        rcases List.mem_cons.mp h with rfl | h
        · exact absurd rfl hij
        · exact h
      simpa [List.lookup_cons, beq_false_of_ne hij] using
        lookup_map_self f co hmem

/-- **C9.**  Chunked transcription reassembles in chunk-index order: the
audio is cut into ⌈duration/30⌉ fixed 30-second chunks, the chunk
transcriptions complete concurrently in an arbitrary order
(`completionOrder`, any permutation of the chunk indices), yet the final
transcript is always the space-joined concatenation of the non-empty
per-chunk transcripts taken in original chunk-index order. -/
theorem chunked_transcript_preserves_order (duration : ℚ)
    (transcript : ℕ → String) (completionOrder : List ℕ)
    (hperm : List.Perm completionOrder
      (List.range ⌈duration / 30⌉.toNat)) :
    chunkedTranscript duration transcript completionOrder =
      String.intercalate " "
        (((List.range ⌈duration / 30⌉.toNat).map transcript).filter
          (fun t => t ≠ "")) := by
  unfold chunkedTranscript gatherByIndex
  dsimp only
  congr 1
  congr 1
  apply List.map_congr_left
  intro i hi
  have hmem : i ∈ completionOrder := hperm.mem_iff.mpr hi
  rw [lookup_map_self transcript completionOrder hmem]
  rfl

/-- Witness for C9: three 30-second chunks completing in the order
2, 0, 1 still yield the transcript in index order. -/
theorem chunked_transcript_preserves_order_witness :
    List.Perm [2, 0, 1] (List.range ⌈(90 : ℚ) / 30⌉.toNat) ∧
    chunkedTranscript 90
      (fun i => if i = 0 then "hello" else if i = 1 then "" else "world")
      [2, 0, 1] =
      String.intercalate " "
        (((List.range ⌈(90 : ℚ) / 30⌉.toNat).map
          (fun i => if i = 0 then "hello" else if i = 1 then "" else "world")).filter
          (fun t => t ≠ "")) := by
  have h3 : (⌈(90 : ℚ) / 30⌉).toNat = 3 := by
    have : ⌈(90 : ℚ) / 30⌉ = 3 := by norm_num
    rw [this]
    rfl
  constructor
  · rw [h3]; decide
  · exact chunked_transcript_preserves_order 90 _ _ (by rw [h3]; decide)

end ChunkOrdering

section QRDecoder

/-- The environment of the C8 counterexample: the original variant's
non-inverted decode yields a non-URL payload, its inverted decode yields a
valid URL, and nothing else decodes. -/
def envC8 : QREnv :=
  { emptyData := false
  , loadOk := true
  , strategyThrows := fun _ => false
  , normal := fun v => if v = 0 then some "hello there" else none
  , inverted := fun v => if v = 0 then some "http://example.com" else none
  , isValidUrl := fun s => s = "http://example.com" }

/-- **C8, counterexample.**  `extractFromBase64` does not return the first
decoded payload along the chain that is a valid URL: when the original
variant's non-inverted decode yields a (non-URL) payload, the inverted
decode of that variant — which carries a valid URL — is never consulted,
and the call returns `null` even though a preprocessing variant does yield
a valid URL under inverted polarity. -/
theorem qr_blocked_inversion_counterexample :
    extractFromBase64M envC8 = none ∧
    specFirstValidUrl envC8 = some "http://example.com" := by
  constructor <;> rfl

lemma truthyResult_ne_empty {x : Option String} {s : String}
    (h : truthyResult x = some s) : s ≠ "" := by
  cases x with
  | none => cases h
  | some t =>
    by_cases ht : t = ""
    · simp [truthyResult, ht] at h
    · simp only [truthyResult, if_neg ht, Option.some.injEq] at h
      subst h; exact ht

lemma truthyResult_if (b : Bool) (x : Option String) :
    truthyResult (if b = true then none else x) =
      (if b = true then none else truthyResult x) := by
  cases b <;> simp [truthyResult]

lemma findSome?_ext {α β : Type} (f g : α → Option β) :
    ∀ (l : List α), (∀ a ∈ l, f a = g a) →
      l.findSome? f = l.findSome? g
  | [], _ => rfl
  | a :: l, h => by
    rw [List.findSome?_cons, List.findSome?_cons, h a (List.mem_cons_self a l),
      findSome?_ext f g l (fun b hb => h b (List.mem_cons_of_mem a hb))]

lemma findSome?_truthy_stable (g : Fin 11 → Option String) :
    ∀ (l : List (Fin 11)),
      truthyResult (l.findSome? (fun v => truthyResult (g v))) =
        l.findSome? (fun v => truthyResult (g v))
  | [] => rfl
  | a :: l => by
    rw [List.findSome?_cons]
    cases hga : truthyResult (g a) with
    | none => exact findSome?_truthy_stable g l
    | some s =>
      have hs : s ≠ "" := truthyResult_ne_empty hga
      simp [truthyResult, hs]

lemma findSome?_none {α β : Type} :
    ∀ l : List α, l.findSome? (fun _ => (none : Option β)) = none
  | [] => rfl
  | _ :: l => by
    rw [List.findSome?_cons]
    exact findSome?_none l

lemma findSome?_if_pull (b : Bool) (h : Fin 11 → Option String)
    (l : List (Fin 11)) :
    l.findSome? (fun v => if b = true then none else h v) =
      (if b = true then none else l.findSome? h) := by
  cases b
  · simp
  · simpa using findSome?_none l

lemma decodeQRCodeM_valid {env : QREnv} {v : Fin 11} {u : String}
    (h : decodeQRCodeM env v = some u) : env.isValidUrl u = true := by
  unfold decodeQRCodeM at h
  rcases hn : env.normal v with _ | d <;> rw [hn] at h <;>
    rcases hi : env.inverted v with _ | d2 <;> rw [hi] at h <;>
    dsimp only at h
  · cases h
  · split at h
    · split at h
      · exact Option.some.inj h ▸ (by assumption)
      · cases h
    · cases h
  · split at h
    · split at h
      · exact Option.some.inj h ▸ (by assumption)
      · cases h
    · cases h
  · split at h
    · split at h
      · exact Option.some.inj h ▸ (by assumption)
      · cases h
    · split at h
      · split at h
        · exact Option.some.inj h ▸ (by assumption)
        · cases h
      · cases h

lemma truthyResult_decode (env : QREnv)
    (hvalid : env.isValidUrl "" = false) (v : Fin 11) :
    truthyResult (decodeQRCodeM env v) = decodeQRCodeM env v := by
  cases hd : decodeQRCodeM env v with
  | none => rfl
  | some u =>
    have hu : env.isValidUrl u = true := decodeQRCodeM_valid hd
    have hne : u ≠ "" := by
      intro he; rw [he] at hu; rw [hvalid] at hu; cases hu
    simp [truthyResult, hne]

/-- **C8, amended.**  `extractFromBase64` never throws (every internal
failure surfaces as `null`), and the strategy loop with its per-strategy
catches is equivalent to one flat first-match scan over the eleven
preprocessing variants in chain order — chain order is only a tie-break —
where a variant's inverted decode is consulted only when its normal decode
yields no payload, and variants of a throwing strategy contribute nothing.
The hypothesis states that the URL validator rejects the empty string,
which `new URL('')` does. -/
theorem qr_first_match_flat (env : QREnv)
    (hvalid : env.isValidUrl "" = false) :
    extractFromBase64M env = codeFirstUrl env := by
  unfold extractFromBase64M codeFirstUrl
  by_cases he : env.emptyData
  · simp [he]
  by_cases hl : env.loadOk
  case neg => simp [he, hl]
  simp only [he, hl, Bool.false_eq_true, if_false, not_true_eq_false,
    not_false_eq_true, if_true, if_neg]
  have hfin : List.finRange 11 =
      ([0, 1, 2, 3, 4] ++ [5, 6, 7, 8, 9, 10] : List (Fin 11)) := by decide
  rw [hfin, List.findSome?_append]
  rw [show ([0, 1, 2, 3, 4, 5] : List (Fin 6)) = [0, 1, 2, 3, 4] ++ [5]
    from rfl, List.findSome?_append]
  have hdec := truthyResult_decode env hvalid
  congr 1
  · -- the five single-variant strategies
    have e0 : strategyResultM env 0 =
        (if env.strategyThrows 0 = true then none
         else decodeQRCodeM env 0) := rfl
    have e1 : strategyResultM env 1 =
        (if env.strategyThrows 1 = true then none
         else decodeQRCodeM env 1) := rfl
    have e2 : strategyResultM env 2 =
        (if env.strategyThrows 2 = true then none
         else decodeQRCodeM env 2) := rfl
    have e3 : strategyResultM env 3 =
        (if env.strategyThrows 3 = true then none
         else decodeQRCodeM env 3) := rfl
    have e4 : strategyResultM env 4 =
        (if env.strategyThrows 4 = true then none
         else decodeQRCodeM env 4) := rfl
    have f0 : variantStrategy (0 : Fin 11) = (0 : Fin 6) := rfl
    have f1 : variantStrategy (1 : Fin 11) = (1 : Fin 6) := rfl
    have f2 : variantStrategy (2 : Fin 11) = (2 : Fin 6) := rfl
    have f3 : variantStrategy (3 : Fin 11) = (3 : Fin 6) := rfl
    have f4 : variantStrategy (4 : Fin 11) = (4 : Fin 6) := rfl
    simp only [List.findSome?_cons, List.findSome?_nil, e0, e1, e2, e3, e4,
      f0, f1, f2, f3, f4, truthyResult_if, hdec]
  · -- the regions strategy versus the six region variants
    have hvs : ∀ v ∈ ([5, 6, 7, 8, 9, 10] : List (Fin 11)),
        variantStrategy v = 5 := by decide
    rw [findSome?_ext
      (fun v => if env.strategyThrows (variantStrategy v) = true
        then none else truthyResult (decodeQRCodeM env v))
      (fun v => if env.strategyThrows 5 = true
        then none else truthyResult (decodeQRCodeM env v))
      ([5, 6, 7, 8, 9, 10] : List (Fin 11))
      (fun v hv => by simp only [hvs v hv])]
    rw [findSome?_if_pull]
    have e5 : strategyResultM env 5 =
        (if env.strategyThrows 5 = true then none
         else tryExtractFromRegionsM env) := rfl
    rw [List.findSome?_cons, List.findSome?_nil]
    rw [e5, truthyResult_if]
    unfold tryExtractFromRegionsM
    cases env.strategyThrows 5
    · simp only [Bool.false_eq_true, if_false]
      rw [findSome?_truthy_stable]
      cases ([(5 : Fin 11), 6, 7, 8, 9, 10].findSome?
          (fun v => truthyResult (decodeQRCodeM env v))) <;> rfl
    · rfl

/-- Witness for the amended C8, at the counterexample environment (whose
URL validator indeed rejects `""`). -/
theorem qr_first_match_flat_witness :
    envC8.isValidUrl "" = false ∧
    extractFromBase64M envC8 = codeFirstUrl envC8 :=
  ⟨by decide, qr_first_match_flat envC8 (by decide)⟩

end QRDecoder

section DateFabrication

/-- **C5.**  The pipeline never fabricates a date: when no source yields a
resolvable date, `validateAndNormalize` returns the candidate with
`date = ""` (it takes no clock input at all), the fusion step passes the
winning candidate's date through unchanged, and mapping an empty date to
today's date happens only in the caller's Step-3 policy
(`eventDateOf`), which uses today exactly when the pipeline's date is
blank. -/
theorem no_date_fabrication (env : GeminiEnv) (e : RawExtracted)
    (ht : truthy e.title = true)
    (hd : ¬ (truthy e.date = true ∧ e.date ≠ some "null")) :
    (∃ r, validateAndNormalize env e = .ok r ∧ r.date = "") ∧
    (∀ today, eventDateOf (some "") today = today) ∧
    (∀ d today, jsTrim d ≠ "" → eventDateOf (some d) today = d) ∧
    (∀ (f dd : DraftEvent) (tr : String) (mt md : Option String)
        (data : String) (oracle : String → DraftEvent),
      truthy f.title = true → truthy f.date = true →
      (mergeStage3 f dd tr mt md data oracle).date = f.date) := by
  refine ⟨?_, ?_, ?_, ?_⟩
  · unfold validateAndNormalize
    rw [if_neg (by simp [ht])]
    dsimp only
    rw [if_neg (by simpa using hd)]
    exact ⟨_, rfl, rfl⟩
  · intro today
    simp [eventDateOf, truthy]
  · intro d today hjs
    have hne : d ≠ "" := by
      intro h0
      rw [h0] at hjs
      exact hjs rfl
    simp only [eventDateOf, orEmpty]
    rw [if_pos ⟨by simp [truthy, hne], hjs⟩]
  · intro f dd tr mt md data oracle htf hdf
    simp only [mergeStage3, if_pos (And.intro htf hdf)]
    split <;> (repeat' split) <;> simp

/-- Witness for C5: a candidate with a title and no date. -/
theorem no_date_fabrication_witness :
    (truthy (some "Jazz Night") = true ∧
      ¬ (truthy (none : Option String) = true ∧
        (none : Option String) ≠ some "null")) ∧
    ((∃ r, validateAndNormalize ⟨fun _ => none⟩
        { title := some "Jazz Night", date := none, time := some "8pm" } =
          .ok r ∧ r.date = "") ∧
     (∀ today, eventDateOf (some "") today = today) ∧
     (∀ d today, jsTrim d ≠ "" → eventDateOf (some d) today = d) ∧
     (∀ (f dd : DraftEvent) (tr : String) (mt md : Option String)
         (data : String) (oracle : String → DraftEvent),
       truthy f.title = true → truthy f.date = true →
       (mergeStage3 f dd tr mt md data oracle).date = f.date)) :=
  ⟨⟨by decide, by decide⟩,
    no_date_fabrication ⟨fun _ => none⟩
      { title := some "Jazz Night", date := none, time := some "8pm" }
      (by decide) (by decide)⟩

end DateFabrication

section TimeShape

lemma digitChar_isDigit (n : ℕ) : (digitChar n).isDigit = true := by
  unfold digitChar
  split_ifs <;> rfl

lemma natReprCore_all_digits :
    ∀ fuel n, (natReprCore fuel n).all Char.isDigit = true
  | 0, _ => rfl
  | fuel + 1, n => by
    rw [natReprCore]
    split_ifs
    · simp [digitChar_isDigit]
    · rw [List.all_append]
      simp [natReprCore_all_digits fuel (n / 10), digitChar_isDigit]

lemma natRepr_all_digits (n : ℕ) : (natRepr n).all Char.isDigit = true :=
  natReprCore_all_digits (n + 1) n

lemma natReprCore_length_pos :
    ∀ fuel n, 1 ≤ fuel → 1 ≤ (natReprCore fuel n).length := by
  intro fuel n hf
  rcases fuel with _ | fuel
  · omega
  · rw [natReprCore]
    split_ifs
    · simp
    · simp

lemma natRepr_length_pos (n : ℕ) : 1 ≤ (natRepr n).length :=
  natReprCore_length_pos (n + 1) n (by omega)

lemma natReprCore_length_le_one :
    ∀ fuel n, n < 10 → (natReprCore fuel n).length ≤ 1 := by
  intro fuel n h
  rcases fuel with _ | fuel
  · simp [natReprCore]
  · rw [natReprCore, if_pos h]
    simp

lemma natReprCore_length_le_two :
    ∀ fuel n, n < 100 → (natReprCore fuel n).length ≤ 2 := by
  intro fuel n h
  rcases fuel with _ | fuel
  · simp [natReprCore]
  · rw [natReprCore]
    split_ifs with h10
    · simp
    · have hdiv : n / 10 < 10 := by omega
      have := natReprCore_length_le_one fuel (n / 10) hdiv
      simp only [List.length_append, List.length_cons, List.length_nil]
      omega

lemma natRepr_length_le_two {n : ℕ} (h : n < 100) :
    (natRepr n).length ≤ 2 :=
  natReprCore_length_le_two (n + 1) n h

lemma pad2_all_digits (n : ℕ) : (pad2 n).all Char.isDigit = true := by
  simp only [pad2]
  split_ifs
  · simp only [List.all_cons, Bool.and_eq_true]
    exact ⟨rfl, natRepr_all_digits n⟩
  · exact natRepr_all_digits n

lemma pad2_length_ge (n : ℕ) : 2 ≤ (pad2 n).length := by
  simp only [pad2]
  have := natRepr_length_pos n
  split_ifs with h
  · simp only [List.length_cons]
    omega
  · omega

lemma pad2_length_eq {n : ℕ} (h : n < 100) : (pad2 n).length = 2 := by
  simp only [pad2]
  have h1 := natRepr_length_pos n
  have h2 := natRepr_length_le_two h
  split_ifs with hlt
  · simp only [List.length_cons]
    omega
  · omega

lemma padInt2_eq_pad2 {z : ℤ} (h : 0 ≤ z) : padInt2 z = pad2 z.toNat := by
  have hrepr : intRepr z = natRepr z.toNat := by
    unfold intRepr
    rw [if_neg (not_lt.mpr h)]
  simp only [padInt2, pad2, hrepr]

lemma char_isDigit_bounds {c : Char} (h : c.isDigit = true) :
    48 ≤ c.toNat ∧ c.toNat ≤ 57 := by
  unfold Char.isDigit at h
  simp [Char.le_def] at h
  exact ⟨h.1, h.2⟩

lemma digitVal_le_nine {c : Char} (h : c.isDigit = true) : digitVal c ≤ 9 := by
  have := char_isDigit_bounds h
  unfold digitVal
  omega

lemma isDigit_not_ws {c : Char} (h : c.isDigit = true) : isWs c = false := by
  have hb := char_isDigit_bounds h
  unfold isWs Char.isWhitespace
  simp only [Bool.or_eq_false_iff, decide_eq_false_iff_not, Char.ext_iff]
  have hv : 48 ≤ c.val.toNat ∧ c.val.toNat ≤ 57 := hb
  refine ⟨⟨⟨?_, ?_⟩, ?_⟩, ?_⟩ <;> intro he <;> rw [he] at hv <;>
    revert hv <;> decide

/-! Minutes bound for the am/pm search: every successful match carries a
minutes value below 100 (either a two-digit group or the default 0). -/

lemma tryEnd_minutes {h m : ℕ} {l : List Char} {h2 m2 : ℕ} {pm : Bool}
    (he : tryEnd h m l = some (h2, m2, pm)) : m2 = m := by
  unfold tryEnd at he
  cases ham : ampmHead (l.dropWhile isWs) with
  | none => rw [ham] at he; cases he
  | some pm2 =>
    rw [ham] at he
    simp at he
    omega

lemma tryMinutes_minutes {h : ℕ} {l : List Char} {h2 m : ℕ} {pm : Bool}
    (he : tryMinutes h l = some (h2, m, pm)) : m ≤ 99 := by
  unfold tryMinutes at he
  rcases l with _ | ⟨d1, _ | ⟨d2, rest⟩⟩
  · rw [tryEnd_minutes he]; omega
  · rw [tryEnd_minutes he]; omega
  · dsimp only at he
    split_ifs at he with hd
    · simp only [Bool.and_eq_true] at hd
      rcases htry : tryEnd h (10 * digitVal d1 + digitVal d2) rest with
        _ | ⟨vh, vm, vpm⟩
      · rw [htry] at he
        have he2 : tryEnd h 0 (d1 :: d2 :: rest) = some (h2, m, pm) := he
        rw [tryEnd_minutes he2]; omega
      · rw [htry] at he
        have heq : (vh, vm, vpm) = (h2, m, pm) := Option.some.inj he
        have hvm : vm = 10 * digitVal d1 + digitVal d2 := tryEnd_minutes htry
        have b1 := digitVal_le_nine hd.1
        have b2 := digitVal_le_nine hd.2
        simp only [Prod.mk.injEq] at heq
        omega
    · rw [tryEnd_minutes he]; omega

lemma tryAfterHours_minutes {h : ℕ} {l : List Char} {h2 m : ℕ} {pm : Bool}
    (he : tryAfterHours h l = some (h2, m, pm)) : m ≤ 99 := by
  unfold tryAfterHours at he
  split at he
  · exact tryMinutes_minutes he
  · exact tryMinutes_minutes he

lemma orElse_some_cases {α : Type} {x : Option α} {f : Unit → Option α}
    {v : α} (he : x.orElse f = some v) :
    x = some v ∨ (x = none ∧ f () = some v) := by
  cases hx : x
  · rw [hx] at he
    exact Or.inr ⟨rfl, he⟩
  · rw [hx] at he
    exact Or.inl he

lemma matchAmPmAt_minutes {l : List Char} {h2 m : ℕ} {pm : Bool}
    (he : matchAmPmAt l = some (h2, m, pm)) : m ≤ 99 := by
  unfold matchAmPmAt at he
  rcases l with _ | ⟨c1, _ | ⟨c2, rest2⟩⟩
  · cases he
  · dsimp only at he
    split_ifs at he
    · exact tryAfterHours_minutes he
  · dsimp only at he
    split_ifs at he
    · rcases orElse_some_cases he with h1 | ⟨-, h1⟩
      · exact tryAfterHours_minutes h1
      · exact tryAfterHours_minutes h1
    · exact tryAfterHours_minutes he

lemma findAmPm_minutes :
    ∀ {l : List Char} {h2 m : ℕ} {pm : Bool},
      findAmPm l = some (h2, m, pm) → m ≤ 99
  | [], _, _, _, he => by cases he
  | c :: t, h2, m, pm, he => by
    rw [findAmPm] at he
    rcases orElse_some_cases he with h1 | ⟨-, h1⟩
    · exact matchAmPmAt_minutes h1
    · exact findAmPm_minutes h1

lemma dropWhile_eq_self_of_nonws {l : List Char}
    (h : ∀ c ∈ l, isWs c = false) : l.dropWhile isWs = l := by
  cases l with
  | nil => rfl
  | cons a l =>
    rw [List.dropWhile_cons, if_neg]
    simp [h a (List.mem_cons_self a l)]

/-- Trimming a string whose first characters form a non-empty
non-whitespace block keeps that block as a prefix. -/
lemma jsTrimList_append_of_nonws {p r : List Char} (hp : p ≠ [])
    (hw : ∀ c ∈ p, isWs c = false) :
    ∃ q, jsTrimList (p ++ r) = p ++ q := by
  unfold jsTrimList
  have hfront : (p ++ r).dropWhile isWs = p ++ r := by
    rcases p with _ | ⟨a, p2⟩
    · exact absurd rfl hp
    · rw [List.cons_append, List.dropWhile_cons, if_neg]
      simp [hw a (List.mem_cons_self _ _)]
  rw [hfront, List.reverse_append, List.dropWhile_append]
  by_cases hre : (r.reverse.dropWhile isWs).isEmpty
  · rw [if_pos hre]
    rw [dropWhile_eq_self_of_nonws
      (fun c hc => hw c (List.mem_reverse.mp hc))]
    exact ⟨[], by simp⟩
  · rw [if_neg hre, List.reverse_append, List.reverse_reverse]
    exact ⟨(r.reverse.dropWhile isWs).reverse, rfl⟩

lemma startsYMD_jsTrim {s : String} (h : startsYMD s.data = true) :
    s ≠ "" ∧ startsYMD (jsTrimList s.data) = true := by
  unfold startsYMD at h
  split at h
  case _ a b c d s1 e f s2 g k rest heq =>
    simp only [Bool.and_eq_true, beq_iff_eq] at h
    obtain ⟨⟨⟨⟨⟨⟨⟨⟨⟨ha, hb⟩, hc⟩, hd⟩, hs1⟩, he⟩, hf⟩, hs2⟩, hg⟩, hk⟩ := h
    have hne : s ≠ "" := by
      intro hs
      rw [hs] at heq
      cases heq
    have hsplit : s.data = [a, b, c, d, s1, e, f, s2, g, k] ++ rest := heq
    have hw : ∀ x ∈ [a, b, c, d, s1, e, f, s2, g, k], isWs x = false := by
      intro x hx
      subst hs1; subst hs2
      simp only [List.mem_cons, List.not_mem_nil, or_false] at hx
      rcases hx with rfl | rfl | rfl | rfl | rfl | rfl | rfl | rfl | rfl | rfl
      all_goals first
        | exact isDigit_not_ws (by assumption)
        | rfl
    obtain ⟨q, hq⟩ := jsTrimList_append_of_nonws (by simp) hw
    refine ⟨hne, ?_⟩
    rw [hsplit, hq]
    show startsYMD (a :: b :: c :: d :: s1 :: e :: f :: s2 :: g :: k :: q) =
      true
    unfold startsYMD
    simp [ha, hb, hc, hd, hs1, he, hf, hs2, hg, hk]
  case _ => exact absurd h (by simp)

lemma startsMDY_jsTrim {s : String} (h : startsMDY s.data = true) :
    s ≠ "" ∧ startsMDY (jsTrimList s.data) = true := by
  unfold startsMDY at h
  split at h
  case _ a b s1 c d s2 e f g k rest heq =>
    simp only [Bool.and_eq_true, beq_iff_eq] at h
    obtain ⟨⟨⟨⟨⟨⟨⟨⟨⟨ha, hb⟩, hs1⟩, hc⟩, hd⟩, hs2⟩, he⟩, hf⟩, hg⟩, hk⟩ := h
    have hne : s ≠ "" := by
      intro hs
      rw [hs] at heq
      cases heq
    have hsplit : s.data = [a, b, s1, c, d, s2, e, f, g, k] ++ rest := heq
    have hw : ∀ x ∈ [a, b, s1, c, d, s2, e, f, g, k], isWs x = false := by
      intro x hx
      subst hs1; subst hs2
      simp only [List.mem_cons, List.not_mem_nil, or_false] at hx
      rcases hx with rfl | rfl | rfl | rfl | rfl | rfl | rfl | rfl | rfl | rfl
      all_goals first
        | exact isDigit_not_ws (by assumption)
        | rfl
    obtain ⟨q, hq⟩ := jsTrimList_append_of_nonws (by simp) hw
    refine ⟨hne, ?_⟩
    rw [hsplit, hq]
    show startsMDY (a :: b :: s1 :: c :: d :: s2 :: e :: f :: g :: k :: q) =
      true
    unfold startsMDY
    simp [ha, hb, hc, hd, hs1, he, hf, hs2, hg, hk]
  case _ => exact absurd h (by simp)

lemma shape_of_isHHMMSS {l : List Char} (h : isHHMMSS l = true) :
    ∃ hs ms ss : List Char, l = hs ++ ':' :: (ms ++ ':' :: ss) ∧
      hs.length = 2 ∧ hs.all Char.isDigit = true ∧
      ms.length = 2 ∧ ms.all Char.isDigit = true ∧
      ss.length = 2 ∧ ss.all Char.isDigit = true := by
  unfold isHHMMSS at h
  split at h
  case _ a b c1 c d c2 e f =>
    simp only [Bool.and_eq_true, beq_iff_eq] at h
    obtain ⟨⟨⟨⟨⟨⟨⟨ha, hb⟩, hc1⟩, hc⟩, hd⟩, hc2⟩, he⟩, hf⟩ := h
    subst hc1; subst hc2
    exact ⟨[a, b], [c, d], [e, f], rfl, rfl, by simp [ha, hb], rfl,
      by simp [hc, hd], rfl, by simp [he, hf]⟩
  case _ => exact absurd h (by simp)

lemma shape_of_isHHMM {l : List Char} (h : isHHMM l = true) :
    ∃ hs ms : List Char, l = hs ++ ':' :: ms ∧
      hs.length = 2 ∧ hs.all Char.isDigit = true ∧
      ms.length = 2 ∧ ms.all Char.isDigit = true := by
  unfold isHHMM at h
  split at h
  case _ a b c1 c d =>
    simp only [Bool.and_eq_true, beq_iff_eq] at h
    obtain ⟨⟨⟨⟨ha, hb⟩, hc1⟩, hc⟩, hd⟩ := h
    subst hc1
    exact ⟨[a, b], [c, d], rfl, rfl, by simp [ha, hb], rfl, by simp [hc, hd]⟩
  case _ => exact absurd h (by simp)

/-- **C10, amended.**  `normalizeTime` either throws or returns a string of
shape `H:MM:SS` in which the minutes and seconds fields are exactly two
digits and the hour field is two *or more* digits (the am/pm branch can
produce a three-digit hour, see the counterexample); and every input
beginning with `YYYY-MM-DD` or `MM/DD/YYYY` still always throws, so a
date-shaped string is never returned as a time. -/
theorem normalizeTime_shape_amended (s t : String) :
    (normalizeTime s = .ok t →
      ∃ hs ms ss : List Char,
        t.data = hs ++ ':' :: (ms ++ ':' :: ss) ∧
        2 ≤ hs.length ∧ hs.all Char.isDigit = true ∧
        ms.length = 2 ∧ ms.all Char.isDigit = true ∧
        ss.length = 2 ∧ ss.all Char.isDigit = true) ∧
    ((startsYMD s.data || startsMDY s.data) = true →
      ∃ e, normalizeTime s = .error e) := by
  constructor
  · intro hok
    by_cases hemp : s = ""
    · unfold normalizeTime at hok
      rw [if_pos hemp] at hok
      cases hok
    unfold normalizeTime at hok
    rw [if_neg hemp] at hok
    dsimp only at hok
    set l := jsTrimList s.data with hldef
    by_cases hdate : (startsYMD l || startsMDY l) = true
    · rw [if_pos hdate] at hok
      cases hok
    rw [if_neg hdate] at hok
    by_cases h1 : isHHMMSS l = true
    · rw [if_pos h1] at hok
      obtain ⟨hs, ms, ss, hl, hhs2, hhsd, hms2, hmsd, hss2, hssd⟩ :=
        shape_of_isHHMMSS h1
      have ht : String.mk l = t := Except.ok.inj hok
      exact ⟨hs, ms, ss, by rw [← ht]; exact hl, by omega, hhsd, hms2,
        hmsd, hss2, hssd⟩
    rw [if_neg h1] at hok
    by_cases h2 : isHHMM l = true
    · rw [if_pos h2] at hok
      obtain ⟨hs, ms, hl, hhs2, hhsd, hms2, hmsd⟩ := shape_of_isHHMM h2
      have ht : String.mk l ++ ":00" = t := Except.ok.inj hok
      refine ⟨hs, ms, ['0', '0'], ?_, by omega, hhsd, hms2, hmsd, rfl, rfl⟩
      rw [← ht]
      have hdata : (String.mk l ++ ":00").data = l ++ [':', '0', '0'] := rfl
      rw [hdata, hl]
      simp
    rw [if_neg h2] at hok
    cases hfind : findAmPm l with
    | some trip =>
      obtain ⟨h0, minutes, isPm⟩ := trip
      rw [hfind] at hok
      dsimp only at hok
      obtain ⟨H, hH⟩ : ∃ H,
          String.mk (pad2 H) ++ ":" ++ String.mk (pad2 minutes) ++ ":00" =
            t := ⟨_, Except.ok.inj hok⟩
      have hmin : minutes ≤ 99 := findAmPm_minutes hfind
      refine ⟨pad2 H, pad2 minutes, ['0', '0'], ?_, pad2_length_ge _,
        pad2_all_digits _, pad2_length_eq (by omega), pad2_all_digits _,
        rfl, rfl⟩
      rw [← hH]
      have hdata :
          (String.mk (pad2 H) ++ ":" ++ String.mk (pad2 minutes) ++
            ":00").data =
            pad2 H ++ [':'] ++ pad2 minutes ++ [':', '0', '0'] := rfl
      rw [hdata]
      simp [List.append_assoc]
    | none =>
      rw [hfind] at hok
      by_cases hcol : ':' ∈ l
      case neg => rw [if_neg hcol] at hok; cases hok
      rw [if_pos hcol] at hok
      dsimp only at hok
      by_cases hlen : (splitColon l).length ≥ 2
      case neg => rw [if_neg hlen] at hok; cases hok
      rw [if_pos hlen] at hok
      cases hp0 : parseIntJS ((splitColon l).getD 0 []) with
      | none => rw [hp0] at hok; cases hok
      | some hours =>
        rw [hp0] at hok
        dsimp only at hok
        by_cases hb0 : 0 ≤ hours ∧ hours ≤ 23
        case neg => rw [if_neg hb0] at hok; cases hok
        rw [if_pos hb0] at hok
        cases hp1 : parseIntJS ((splitColon l).getD 1 []) with
        | none => rw [hp1] at hok; cases hok
        | some minutes =>
          rw [hp1] at hok
          dsimp only at hok
          by_cases hb1 : 0 ≤ minutes ∧ minutes ≤ 59
          case neg => rw [if_neg hb1] at hok; cases hok
          rw [if_pos hb1] at hok
          have ht : String.mk (padInt2 hours) ++ ":" ++
              String.mk (padInt2 minutes) ++ ":00" = t :=
            Except.ok.inj hok
          rw [padInt2_eq_pad2 hb0.1, padInt2_eq_pad2 hb1.1] at ht
          have hm100 : minutes.toNat < 100 := by omega
          refine ⟨pad2 hours.toNat, pad2 minutes.toNat, ['0', '0'], ?_,
            pad2_length_ge _, pad2_all_digits _, pad2_length_eq hm100,
            pad2_all_digits _, rfl, rfl⟩
          rw [← ht]
          have hdata : (String.mk (pad2 hours.toNat) ++ ":" ++
              String.mk (pad2 minutes.toNat) ++ ":00").data =
              pad2 hours.toNat ++ [':'] ++ pad2 minutes.toNat ++
                [':', '0', '0'] := rfl
          rw [hdata]
          simp [List.append_assoc]
  · intro hdate
    have hdate2 : startsYMD s.data = true ∨ startsMDY s.data = true := by
      simpa using hdate
    rcases hdate2 with hY | hM
    · obtain ⟨hne, htr⟩ := startsYMD_jsTrim hY
      have herr : normalizeTime s = .error ("Invalid time format: " ++
          String.mk (jsTrimList s.data) ++
          " (appears to be a date, not a time)") := by
        unfold normalizeTime
        rw [if_neg hne]
        dsimp only
        rw [if_pos (by simp [htr])]
      exact ⟨_, herr⟩
    · obtain ⟨hne, htr⟩ := startsMDY_jsTrim hM
      have herr : normalizeTime s = .error ("Invalid time format: " ++
          String.mk (jsTrimList s.data) ++
          " (appears to be a date, not a time)") := by
        unfold normalizeTime
        rw [if_neg hne]
        dsimp only
        rw [if_pos (by simp [htr])]
      exact ⟨_, herr⟩

/-- Witness for the amended C10, at input `"8:30pm"`. -/
theorem normalizeTime_shape_amended_witness :
    normalizeTime "8:30pm" = .ok "20:30:00" ∧
    (∃ hs ms ss : List Char,
      ("20:30:00" : String).data = hs ++ ':' :: (ms ++ ':' :: ss) ∧
      2 ≤ hs.length ∧ hs.all Char.isDigit = true ∧
      ms.length = 2 ∧ ms.all Char.isDigit = true ∧
      ss.length = 2 ∧ ss.all Char.isDigit = true) ∧
    (startsYMD ("2024-12-05 20:00" : String).data ||
      startsMDY ("2024-12-05 20:00" : String).data) = true ∧
    (∃ e, normalizeTime "2024-12-05 20:00" = .error e) :=
  ⟨by rfl,
    (normalizeTime_shape_amended "8:30pm" "20:30:00").1 (by rfl),
    by rfl,
    (normalizeTime_shape_amended "2024-12-05 20:00" "").2 (by rfl)⟩

end TimeShape

/-- **C10, counterexample.**  `normalizeTime "99pm"` returns
`"111:00:00"`: a successfully returned value whose hour field has three
digits, so the result is not of the claimed `HH:MM:SS` two-digit shape. -/
theorem normalizeTime_three_digit_hour :
    normalizeTime "99pm" = .ok "111:00:00" ∧
    isHHMMSS ("111:00:00" : String).data = false := by
  constructor <;> rfl

end Eventide
